import Mathlib

/-!
Verification of the DataMat resilient data-acquisition engine
(`src/core/adapters/api_adapter.py` and `src/core/auth/oauth2_client.py`).

The Python code is shallowly embedded: Python dicts become insertion-ordered
association lists, the network becomes explicit oracles (one outcome per HTTP
call), and every loop becomes a fuel-indexed structural recursion whose fuel
is the loop's own iteration bound.
-/

set_option autoImplicit false

namespace DataMat

universe u v

variable {α : Type u} {β : Type v}

/-- Python `dict` assignment `d[k] = v` on an insertion-ordered association
list with unique keys: an existing binding is updated in place (position
kept), a new key is appended at the end, as in CPython dicts. -/
def dinsert [DecidableEq α] : List (α × β) → α → β → List (α × β)
  | [], k, v => [(k, v)]
  | (k', v') :: rest, k, v =>
      if k' = k then (k, v) :: rest else (k', v') :: dinsert rest k v

/-- Python `d.get(k)` / `k in d`. -/
def dlookup [DecidableEq α] : List (α × β) → α → Option β
  | [], _ => none
  | (k', v') :: rest, k => if k' = k then some v' else dlookup rest k

/-- The key sequence of the dict (`list(d.keys())`). -/
def keysOf : List (α × β) → List α := List.map Prod.fst

/-- The value sequence of the dict (`list(d.values())`). -/
def valuesOf : List (α × β) → List β := List.map Prod.snd

@[simp] theorem keysOf_nil : keysOf ([] : List (α × β)) = [] := rfl

@[simp] theorem keysOf_cons (p : α × β) (m : List (α × β)) :
    keysOf (p :: m) = p.1 :: keysOf m := rfl

theorem keysOf_dinsert [DecidableEq α] (m : List (α × β)) (k : α) (v : β) :
    keysOf (dinsert m k v) =
      if k ∈ keysOf m then keysOf m else keysOf m ++ [k] := by
  induction m with
  | nil => simp [dinsert]
  | cons p rest ih =>
      obtain ⟨k', v'⟩ := p
      by_cases h : k' = k
      · subst h
        simp [dinsert]
      · have hne : ¬ k = k' := fun hk => h hk.symm
        by_cases hmem : k ∈ keysOf rest
        · simp [dinsert, h, ih, hmem, hne]
        · simp [dinsert, h, ih, hmem, hne]

theorem length_dinsert [DecidableEq α] (m : List (α × β)) (k : α) (v : β) :
    (dinsert m k v).length =
      if k ∈ keysOf m then m.length else m.length + 1 := by
  have h := keysOf_dinsert m k v
  have hl : (dinsert m k v).length = (keysOf (dinsert m k v)).length := by
    simp [keysOf]
  have hm : m.length = (keysOf m).length := by simp [keysOf]
  rw [hl, h]
  by_cases hmem : k ∈ keysOf m <;> simp [hmem, hm]

theorem dlookup_dinsert_self [DecidableEq α] (m : List (α × β)) (k : α) (v : β) :
    dlookup (dinsert m k v) k = some v := by
  induction m with
  | nil => simp [dinsert, dlookup]
  | cons p rest ih =>
      obtain ⟨k', v'⟩ := p
      by_cases h : k' = k
      · simp [dinsert, h, dlookup]
      · simp [dinsert, h, dlookup, ih]

theorem dlookup_dinsert_ne [DecidableEq α] (m : List (α × β)) (k k' : α) (v : β)
    (h : k' ≠ k) : dlookup (dinsert m k v) k' = dlookup m k' := by
  have hne : ¬ k = k' := fun hk => h hk.symm
  induction m with
  | nil => simp [dinsert, dlookup, hne]
  | cons p rest ih =>
      obtain ⟨kh, vh⟩ := p
      by_cases hk : kh = k
      · subst hk
        simp [dinsert, dlookup, hne]
      · by_cases hk' : kh = k'
        · simp [dinsert, hk, dlookup, hk', h]
        · simp [dinsert, hk, dlookup, hk', ih]

theorem dlookup_isSome_iff_mem [DecidableEq α] (m : List (α × β)) (k : α) :
    (dlookup m k).isSome = true ↔ k ∈ keysOf m := by
  induction m with
  | nil => simp [dlookup]
  | cons p rest ih =>
      obtain ⟨k', v'⟩ := p
      by_cases h : k' = k
      · subst h; simp [dlookup]
      · have hne : ¬ k = k' := fun hk => h hk.symm
        simp [dlookup, h, ih, hne]

theorem nodup_keysOf_dinsert [DecidableEq α] (m : List (α × β)) (k : α) (v : β)
    (h : (keysOf m).Nodup) : (keysOf (dinsert m k v)).Nodup := by
  rw [keysOf_dinsert]
  by_cases hmem : k ∈ keysOf m
  · simpa [hmem] using h
  · have hdisj : (keysOf m).Disjoint [k] := by
      intro a ha hak
      rw [List.mem_singleton] at hak
      exact hmem (hak ▸ ha)
    simp only [hmem, if_false]
    exact (List.nodup_append).mpr ⟨h, List.nodup_singleton k, hdisj⟩

/-- Two association lists with the same (duplicate-free) key sequence and the
same lookups are equal. -/
theorem dict_ext [DecidableEq α] (m₁ m₂ : List (α × β))
    (hk : keysOf m₁ = keysOf m₂) (hnd : (keysOf m₁).Nodup)
    (hl : ∀ k, dlookup m₁ k = dlookup m₂ k) : m₁ = m₂ := by
  induction m₁ generalizing m₂ with
  | nil =>
      cases m₂ with
      | nil => rfl
      | cons p rest => simp [keysOf] at hk
  | cons p rest ih =>
      obtain ⟨k, v⟩ := p
      cases m₂ with
      | nil => simp [keysOf] at hk
      | cons q rest₂ =>
          obtain ⟨k₂, v₂⟩ := q
          have hkk : k = k₂ ∧ keysOf rest = keysOf rest₂ := by
            simpa [keysOf] using hk
          obtain ⟨hkk₁, hkk₂⟩ := hkk
          subst hkk₁
          have hv : v = v₂ := by
            have := hl k
            simpa [dlookup] using this
          subst hv
          have hnd0 : (k :: keysOf rest).Nodup := by
            simpa [keysOf] using hnd
          have hnd' : (keysOf rest).Nodup := (List.nodup_cons.mp hnd0).2
          have hknotin : k ∉ keysOf rest := (List.nodup_cons.mp hnd0).1
          have hl' : ∀ k', dlookup rest k' = dlookup rest₂ k' := by
            intro k'
            by_cases hk' : k = k'
            · subst hk'
              have h₁ : dlookup rest k = none := by
                cases hcase : dlookup rest k with
                | none => rfl
                | some w =>
                    exact absurd ((dlookup_isSome_iff_mem rest k).mp
                      (by simp [hcase])) hknotin
              have hknotin₂ : k ∉ keysOf rest₂ := hkk₂ ▸ hknotin
              have h₂ : dlookup rest₂ k = none := by
                cases hcase : dlookup rest₂ k with
                | none => rfl
                | some w =>
                    exact absurd ((dlookup_isSome_iff_mem rest₂ k).mp
                      (by simp [hcase])) hknotin₂
              rw [h₁, h₂]
            · have := hl k'
              simpa [dlookup, hk'] using this
          exact congrArg _ (ih rest₂ hkk₂ hnd' hl')

/-! ## Records and per-pass consolidation

`APISourceAdapter.extract_raw` consolidates the raw rows of each full pass
into the Python dict `consolidated_data`, keyed by `record['id']`.  A raw
record is either a JSON object (a dict) or some non-dict value; the code only
inspects `isinstance(record, dict) and 'id' in record` and `record['id']`,
so identity values are kept abstract in a type `α`. -/

/-- A raw record as handled by `extract_raw`: a dict with `α`-valued fields,
or a non-dict payload element. -/
inductive Rec (α : Type u) where
  | dict (fields : List (String × α))
  | other (v : α)
deriving DecidableEq, Repr

/-- `record['id']` when `isinstance(record, dict) and 'id' in record`
(`api_adapter.py` line 201). -/
def Rec.idOf : Rec α → Option α
  | .dict fields => dlookup fields "id"
  | .other _ => none

/-- `isinstance(record, dict) and 'id' in record`. -/
def Rec.hasId (r : Rec α) : Bool := r.idOf.isSome

/-- One step of the consolidation loop body: `consolidated_data[record['id']]
= record` for a record with an identity, no-op otherwise (under
`max_passes > 1`; the `max_passes == 1` early return is handled in the loop). -/
def mergeRec [DecidableEq α] (m : List (α × Rec α)) (r : Rec α) : List (α × Rec α) :=
  match r.idOf with
  | some i => dinsert m i r
  | none => m

/-- `for record in raw_rows_pass: ...` — merge a whole pass into the
consolidated dict. -/
def mergePass [DecidableEq α] (m : List (α × Rec α)) (rows : List (Rec α)) :
    List (α × Rec α) :=
  rows.foldl mergeRec m

/-- The consolidated dict after the first `k` passes have been merged
(pure prefix semantics of the loop state). -/
def mapAfter [DecidableEq α] (passes : Nat → List (Rec α)) : Nat → List (α × Rec α)
  | 0 => []
  | k + 1 => mergePass (mapAfter passes k) (passes (k + 1))

/-- The last record of `rows` carrying identity `k`, if any (the
last-seen-wins value the consolidation dict stores for key `k`). -/
def lastHit [DecidableEq α] : List (Rec α) → α → Option (Rec α)
  | [], _ => none
  | r :: rest, k =>
      match lastHit rest k with
      | some x => some x
      | none => if r.idOf = some k then some r else none

@[simp] theorem mergePass_nil [DecidableEq α] (m : List (α × Rec α)) :
    mergePass m [] = m := rfl

theorem mergePass_cons [DecidableEq α] (m : List (α × Rec α)) (r : Rec α)
    (rows : List (Rec α)) :
    mergePass m (r :: rows) = mergePass (mergeRec m r) rows := rfl

theorem dlookup_mergePass [DecidableEq α] (rows : List (Rec α))
    (m : List (α × Rec α)) (k : α) :
    dlookup (mergePass m rows) k =
      match lastHit rows k with
      | some r => some r
      | none => dlookup m k := by
  induction rows generalizing m with
  | nil => simp [lastHit]
  | cons r rest ih =>
      rw [mergePass_cons, ih]
      cases hrest : lastHit rest k with
      | some x => simp [lastHit, hrest]
      | none =>
          by_cases hid : r.idOf = some k
          · simp only [lastHit, hrest, hid, if_pos]
            cases hr : r.idOf with
            | none => rw [hr] at hid; exact absurd hid (by simp)
            | some j =>
                have hj : j = k := by rw [hr] at hid; exact Option.some.inj hid
                subst hj
                simp [mergeRec, hr, dlookup_dinsert_self]
          · simp only [lastHit, hrest, hid, if_neg, not_false_iff]
            cases hr : r.idOf with
            | none => simp [mergeRec, hr]
            | some j =>
                have hj : ¬ k = j := by
                  intro hk; exact hid (hk ▸ hr)
                simp [mergeRec, hr, dlookup_dinsert_ne m j k r hj]

theorem keysOf_mergePass_mono [DecidableEq α] (rows : List (Rec α))
    (m : List (α × Rec α)) (k : α) (h : k ∈ keysOf m) :
    k ∈ keysOf (mergePass m rows) := by
  induction rows generalizing m with
  | nil => simpa using h
  | cons r rest ih =>
      rw [mergePass_cons]
      refine ih _ ?_
      cases hr : r.idOf with
      | none => simpa [mergeRec, hr] using h
      | some j =>
          simp only [mergeRec, hr]
          rw [keysOf_dinsert]
          by_cases hj : j ∈ keysOf m
          · simpa [hj] using h
          · simp [hj, List.mem_append, h]

theorem mem_keysOf_mergePass [DecidableEq α] (rows : List (Rec α))
    (m : List (α × Rec α)) (r : Rec α) (k : α)
    (hr : r ∈ rows) (hid : r.idOf = some k) :
    k ∈ keysOf (mergePass m rows) := by
  induction rows generalizing m with
  | nil => cases hr
  | cons r₀ rest ih =>
      rw [mergePass_cons]
      rcases List.mem_cons.mp hr with h₀ | h₀
      · subst h₀
        refine keysOf_mergePass_mono rest _ k ?_
        simp only [mergeRec, hid]
        rw [keysOf_dinsert]
        by_cases hj : k ∈ keysOf m
        · simp [hj]
        · simp [hj]
      · exact ih _ h₀

theorem keysOf_mergePass_of_subset [DecidableEq α] (rows : List (Rec α))
    (m : List (α × Rec α))
    (h : ∀ r ∈ rows, ∀ k, r.idOf = some k → k ∈ keysOf m) :
    keysOf (mergePass m rows) = keysOf m := by
  induction rows generalizing m with
  | nil => rfl
  | cons r rest ih =>
      rw [mergePass_cons]
      have hm : keysOf (mergeRec m r) = keysOf m := by
        cases hr : r.idOf with
        | none => simp [mergeRec, hr]
        | some j =>
            have hj : j ∈ keysOf m := h r (by simp) j hr
            simp [mergeRec, hr, keysOf_dinsert, hj]
      rw [← hm] at h ⊢
      exact ih _ (fun r' hr' k hk => h r' (List.mem_cons_of_mem _ hr') k hk)

theorem nodup_keysOf_mergePass [DecidableEq α] (rows : List (Rec α))
    (m : List (α × Rec α)) (h : (keysOf m).Nodup) :
    (keysOf (mergePass m rows)).Nodup := by
  induction rows generalizing m with
  | nil => exact h
  | cons r rest ih =>
      rw [mergePass_cons]
      refine ih _ ?_
      cases hr : r.idOf with
      | none => simpa [mergeRec, hr] using h
      | some j =>
          have hrw : mergeRec m r = dinsert m j r := by simp [mergeRec, hr]
          rw [hrw]
          exact nodup_keysOf_dinsert m j r h

/-- Re-merging the same pass into an already-merged dict changes nothing:
`mergePass` is idempotent over its row list. -/
theorem mergePass_idem [DecidableEq α] (rows : List (Rec α))
    (m : List (α × Rec α)) (h : (keysOf m).Nodup) :
    mergePass (mergePass m rows) rows = mergePass m rows := by
  refine dict_ext _ _ ?_ ?_ ?_
  · refine keysOf_mergePass_of_subset _ _ ?_
    intro r hr k hk
    exact mem_keysOf_mergePass rows m r k hr hk
  · exact nodup_keysOf_mergePass rows _ (nodup_keysOf_mergePass rows m h)
  · intro k
    rw [dlookup_mergePass, dlookup_mergePass]
    cases hlast : lastHit rows k <;> simp

/-! ## The consolidation loop of `extract_raw` (api_adapter.py lines 170-231)

The upstream is abstracted as `passes : Nat → List (Rec α)`: `passes i` is
the row list produced by the `i`-th call of `_execute_full_pass` (1-based).
The loop is a structural recursion on the remaining iteration budget
(`fuel`); it starts with `fuel = max_passes`, mirroring
`for i in range(1, self.max_passes + 1)`. -/

/-- How the consolidation loop ended (each constructor is one `return` /
`break` / loop-exhaustion point of `extract_raw`). -/
inductive StopReason where
  | emptyFirst
  | emptyLater
  | noIdFast
  | singlePass
  | stabilized
  | budget
deriving DecidableEq, Repr

/-- Result of the consolidation loop: the produced row list (before
enrichment), how many passes were executed, and which exit was taken. -/
structure LoopOut (α : Type u) where
  rows : List (Rec α)
  passesRun : Nat
  reason : StopReason
deriving DecidableEq, Repr

/-- `any(record is not a dict with an 'id' key for record in rows)` — the
condition that triggers the `max_passes == 1` raw-list fast return. -/
def hasNoIdRecord (rows : List (Rec α)) : Bool := rows.any (fun r => !r.hasId)

/-- The body of `extract_raw`'s `for i in range(1, max_passes + 1)` loop.
`i` is the 1-based pass index, `m` the consolidated dict so far, and
`fuel = max_passes - i + 1` the remaining iterations. -/
def loopGo [DecidableEq α] (passes : Nat → List (Rec α)) (maxPasses : Nat) :
    Nat → List (α × Rec α) → Nat → LoopOut α
  | i, m, 0 => ⟨valuesOf m, i - 1, .budget⟩
  | i, m, fuel + 1 =>
      let rows := passes i
      if rows.isEmpty then
        if 1 < i then ⟨valuesOf m, i, .emptyLater⟩
        else ⟨[], 1, .emptyFirst⟩
      else if maxPasses = 1 ∧ hasNoIdRecord rows then ⟨rows, 1, .noIdFast⟩
      else
        let m' := mergePass m rows
        if maxPasses = 1 then ⟨valuesOf m', 1, .singlePass⟩
        else if m'.length = m.length ∧ 1 < i then ⟨valuesOf m', i, .stabilized⟩
        else loopGo passes maxPasses (i + 1) m' fuel

/-- The whole consolidation loop of `extract_raw`, from pass 1 with an empty
consolidated dict. -/
def extractLoop [DecidableEq α] (passes : Nat → List (Rec α)) (maxPasses : Nat) :
    LoopOut α :=
  loopGo passes maxPasses 1 [] maxPasses

/-- First-occurrence de-duplication, modelling
`list(set(item['id'] for item in raw_data if 'id' in item))`.
CPython's set iteration order is unspecified; no settled claim depends on the
order in which identities are enriched, only on which identities survive. -/
def firstDedup [DecidableEq α] : List α → List α
  | [] => []
  | x :: xs => x :: (firstDedup xs).filter (fun y => decide (y ≠ x))

/-- `APISourceAdapter._enrich_data_raw` over a detail-fetch oracle
`detail : α → Option (Rec α)`; `_enrich_one_detail` catches every exception
and returns `None`, so the oracle is total.  `.error ()` models raising
`DataExtractionError` ("Dados brutos inválidos ou sem 'id' para
enriquecimento."). -/
def enrich_data_raw [DecidableEq α] (detail : α → Option (Rec α))
    (raw : List (Rec α)) : Except Unit (List (Rec α)) :=
  match raw with
  | [] => .error ()
  | r :: _ =>
      if !r.hasId then .error ()
      else
        let ids := firstDedup (raw.filterMap Rec.idOf)
        if ids.isEmpty then .ok raw
        else
          let enriched := ids.filterMap detail
          if enriched.isEmpty then .ok raw else .ok enriched

/-- `APISourceAdapter.extract_raw`: the consolidation loop followed by the
optional enrichment stage.  The `emptyFirst` exit is Python's `return []`
and the `noIdFast` exit is `return raw_rows_pass`; both bypass enrichment.
The `singlePass` exit and the post-loop return both run
`self._enrich_data_raw(final_list)` when `enrich_by_id` is set. -/
def extract_raw [DecidableEq α] (passes : Nat → List (Rec α)) (maxPasses : Nat)
    (enrichById : Bool) (detail : α → Option (Rec α)) :
    Except Unit (List (Rec α)) :=
  let out := extractLoop passes maxPasses
  match out.reason with
  | .emptyFirst => .ok []
  | .noIdFast => .ok out.rows
  | _ => if enrichById then enrich_data_raw detail out.rows else .ok out.rows

/-- Pass `p` (after the first) adds zero new identities: the consolidated
dict's cardinality is unchanged by the merge of pass `p`. -/
def zeroNewAt [DecidableEq α] (passes : Nat → List (Rec α)) (p : Nat) : Prop :=
  (mapAfter passes p).length = (mapAfter passes (p - 1)).length

theorem hasNoIdRecord_eq_false_iff (rows : List (Rec α)) :
    hasNoIdRecord rows = false ↔ ∀ r ∈ rows, r.hasId = true := by
  simp [hasNoIdRecord]

theorem mergePass_of_noId [DecidableEq α] (rows : List (Rec α))
    (m : List (α × Rec α)) (h : ∀ r ∈ rows, r.idOf = none) :
    mergePass m rows = m := by
  induction rows generalizing m with
  | nil => rfl
  | cons r rest ih =>
      rw [mergePass_cons]
      have hr : r.idOf = none := h r (by simp)
      have : mergeRec m r = m := by simp [mergeRec, hr]
      rw [this]
      exact ih _ (fun r' hr' => h r' (List.mem_cons_of_mem _ hr'))

/-! ### Step lemmas for the consolidation loop -/

theorem loopGo_succ_empty [DecidableEq α] (passes : Nat → List (Rec α))
    (maxPasses i fuel : Nat) (m : List (α × Rec α))
    (hrows : (passes i).isEmpty = true) :
    loopGo passes maxPasses i m (fuel + 1) =
      if 1 < i then ⟨valuesOf m, i, .emptyLater⟩ else ⟨[], 1, .emptyFirst⟩ := by
  simp [loopGo, hrows]

theorem loopGo_succ_step [DecidableEq α] (passes : Nat → List (Rec α))
    (maxPasses i fuel : Nat) (m : List (α × Rec α))
    (hrows : (passes i).isEmpty = false) (hmp : maxPasses ≠ 1) :
    loopGo passes maxPasses i m (fuel + 1) =
      if (mergePass m (passes i)).length = m.length ∧ 1 < i
      then ⟨valuesOf (mergePass m (passes i)), i, .stabilized⟩
      else loopGo passes maxPasses (i + 1) (mergePass m (passes i)) fuel := by
  simp [loopGo, hrows, hmp]

theorem loopGo_one_noId [DecidableEq α] (passes : Nat → List (Rec α))
    (i fuel : Nat) (m : List (α × Rec α))
    (hrows : (passes i).isEmpty = false) (h : hasNoIdRecord (passes i) = true) :
    loopGo passes 1 i m (fuel + 1) = ⟨passes i, 1, .noIdFast⟩ := by
  simp [loopGo, hrows, h]

theorem loopGo_one_allId [DecidableEq α] (passes : Nat → List (Rec α))
    (i fuel : Nat) (m : List (α × Rec α))
    (hrows : (passes i).isEmpty = false) (h : hasNoIdRecord (passes i) = false) :
    loopGo passes 1 i m (fuel + 1) =
      ⟨valuesOf (mergePass m (passes i)), 1, .singlePass⟩ := by
  simp [loopGo, hrows, h]

theorem extractLoop_empty_first [DecidableEq α] (passes : Nat → List (Rec α))
    (maxPasses : Nat) (h1 : 1 ≤ maxPasses) (hrows : (passes 1).isEmpty = true) :
    extractLoop passes maxPasses = ⟨[], 1, .emptyFirst⟩ := by
  obtain ⟨f, rfl⟩ : ∃ f, maxPasses = f + 1 := ⟨maxPasses - 1, by omega⟩
  rw [extractLoop, loopGo_succ_empty passes _ 1 f [] hrows]
  simp

theorem extractLoop_first_step [DecidableEq α] (passes : Nat → List (Rec α))
    (maxPasses : Nat) (h2 : 2 ≤ maxPasses) (hrows : (passes 1).isEmpty = false) :
    extractLoop passes maxPasses =
      loopGo passes maxPasses 2 (mergePass [] (passes 1)) (maxPasses - 1) := by
  obtain ⟨f, rfl⟩ : ∃ f, maxPasses = f + 2 := ⟨maxPasses - 2, by omega⟩
  rw [extractLoop, loopGo_succ_step passes _ 1 (f + 1) [] hrows (by omega)]
  simp

/-- Characterization of the consolidation loop from pass `i ≥ 2` onwards:
it never exceeds the pass budget, a strictly-early exit happens at a pass
after the first that adds zero new identities, and no executed pass before
the exit adds zero new identities. -/
theorem loopGo_char [DecidableEq α] (passes : Nat → List (Rec α))
    (maxPasses : Nat) (fuel : Nat) :
    ∀ i m, 2 ≤ i → m = mapAfter passes (i - 1) → fuel + i = maxPasses + 1 →
      (loopGo passes maxPasses i m fuel).passesRun ≤ maxPasses ∧
      ((loopGo passes maxPasses i m fuel).passesRun < maxPasses →
        2 ≤ (loopGo passes maxPasses i m fuel).passesRun ∧
        zeroNewAt passes ((loopGo passes maxPasses i m fuel).passesRun)) ∧
      (∀ q, i ≤ q → q < (loopGo passes maxPasses i m fuel).passesRun →
        ¬ zeroNewAt passes q) := by
  induction fuel with
  | zero =>
      intro i m hi hm hfuel
      simp only [loopGo]
      exact ⟨by omega, by omega, fun q hq hq' => by omega⟩
  | succ fuel ih =>
      intro i m hi hm hfuel
      have hmp : maxPasses ≠ 1 := by omega
      have hi1 : 1 < i := by omega
      have him : i ≤ maxPasses := by omega
      have hpred : i - 1 + 1 = i := by omega
      cases hrows : (passes i).isEmpty with
      | true =>
          rw [loopGo_succ_empty passes maxPasses i fuel m hrows, if_pos hi1]
          have hempty : passes i = [] := List.isEmpty_iff.mp hrows
          have hz : zeroNewAt passes i := by
            unfold zeroNewAt
            conv_lhs => rw [← hpred]
            rw [mapAfter, hpred, hempty, mergePass_nil]
          exact ⟨him, fun _ => ⟨hi, hz⟩, fun q hq hq' => by simp at hq'; omega⟩
      | false =>
          rw [loopGo_succ_step passes maxPasses i fuel m hrows hmp]
          have hm' : mergePass m (passes i) = mapAfter passes i := by
            conv_rhs => rw [← hpred]
            rw [mapAfter, hpred, hm]
          by_cases hstab : (mergePass m (passes i)).length = m.length
          · rw [if_pos ⟨hstab, hi1⟩]
            have hz : zeroNewAt passes i := by
              unfold zeroNewAt
              rw [← hm', ← hm]
              exact hstab
            exact ⟨him, fun _ => ⟨hi, hz⟩, fun q hq hq' => by simp at hq'; omega⟩
          · rw [if_neg (fun hc => hstab hc.1)]
            have hnz : ¬ zeroNewAt passes i := by
              unfold zeroNewAt
              rw [← hm', ← hm]
              exact hstab
            obtain ⟨c1, c2, c3⟩ :=
              ih (i + 1) (mergePass m (passes i)) (by omega)
                (by simpa using hm') (by omega)
            refine ⟨c1, c2, fun q hq hq' => ?_⟩
            rcases Nat.eq_or_lt_of_le hq with hq2 | hq2
            · exact hq2 ▸ hnz
            · exact c3 q hq2 hq'

/-- `C1`, amended.  For `max_passes > 1` the loop executes at most
`max_passes` passes, and executes strictly fewer exactly when the first pass
returns no rows, or some executed pass `p` with `2 ≤ p < max_passes` adds
zero new identities (cardinality of the consolidated dict unchanged by the
merge of pass `p`, an empty pass counting as a merge that changes nothing). -/
theorem extract_raw_convergence_amended [DecidableEq α]
    (passes : Nat → List (Rec α)) (maxPasses : Nat) (h2 : 2 ≤ maxPasses) :
    (extractLoop passes maxPasses).passesRun ≤ maxPasses ∧
    ((extractLoop passes maxPasses).passesRun < maxPasses ↔
      passes 1 = [] ∨
      ∃ p, 2 ≤ p ∧ p < maxPasses ∧
        p ≤ (extractLoop passes maxPasses).passesRun ∧ zeroNewAt passes p) := by
  cases hrows : (passes 1).isEmpty with
  | true =>
      rw [extractLoop_empty_first passes maxPasses (by omega) hrows]
      have h1 : passes 1 = [] := List.isEmpty_iff.mp hrows
      have hpr : (⟨[], 1, StopReason.emptyFirst⟩ : LoopOut α).passesRun = 1 := rfl
      rw [hpr]
      exact ⟨by omega, fun _ => Or.inl h1, fun _ => by omega⟩
  | false =>
      rw [extractLoop_first_step passes maxPasses h2 hrows]
      obtain ⟨c1, c2, c3⟩ :=
        loopGo_char passes maxPasses (maxPasses - 1) 2 (mergePass [] (passes 1))
          (le_refl 2) rfl (by omega)
      refine ⟨c1, ?_, ?_⟩
      · intro h
        obtain ⟨hp2, hz⟩ := c2 h
        exact Or.inr ⟨_, hp2, h, le_refl _, hz⟩
      · rintro (hl | ⟨p, hp2, hpm, hple, hz⟩)
        · rw [hl] at hrows; simp at hrows
        · have hnot : ¬ p <
              (loopGo passes maxPasses 2 (mergePass [] (passes 1))
                (maxPasses - 1)).passesRun :=
            fun hlt => c3 p hp2 hlt hz
          omega

theorem extractLoop_one_noId [DecidableEq α] (passes : Nat → List (Rec α))
    (hne : (passes 1).isEmpty = false) (h : hasNoIdRecord (passes 1) = true) :
    extractLoop passes 1 = ⟨passes 1, 1, .noIdFast⟩ := by
  rw [extractLoop]
  exact loopGo_one_noId passes 1 0 [] hne h

/-- Against a constant upstream whose records all carry identities, the
consolidation loop's output is the one-pass consolidated dict's values,
whatever the (positive) pass budget. -/
theorem extractLoop_const_rows [DecidableEq α] (rows : List (Rec α))
    (hid : hasNoIdRecord rows = false) (m : Nat) (h1 : 1 ≤ m) :
    (extractLoop (fun _ => rows) m).rows = valuesOf (mergePass [] rows) := by
  cases hrows : rows.isEmpty with
  | true =>
      have hr : rows = [] := List.isEmpty_iff.mp hrows
      subst hr
      rw [extractLoop_empty_first (fun _ => ([] : List (Rec α))) m h1 (by rfl)]
      rfl
  | false =>
      rcases Nat.lt_or_ge m 2 with h | h
      · have hm1 : m = 1 := by omega
        subst hm1
        rw [extractLoop, loopGo_one_allId _ 1 0 [] hrows hid]
      · rw [extractLoop_first_step _ m h hrows]
        obtain ⟨f, hf⟩ : ∃ f, m - 1 = f + 1 := ⟨m - 2, by omega⟩
        rw [hf, loopGo_succ_step _ m 2 f _ hrows (by omega)]
        have hidem : mergePass (mergePass [] rows) rows = mergePass [] rows :=
          mergePass_idem rows [] (by simp [keysOf])
        rw [if_pos ⟨by rw [hidem], by omega⟩, hidem]

/-- `C5`, amended.  Against an upstream returning the same fixed record set
on every pass, where every record carries the identity field, the
consolidation output is the same for every positive `max_passes`, and it
always equals the values of the single-pass consolidated dict: extra passes
merge only already-seen identities and change nothing.  (The amendment
excludes record sets containing an identity-less record: there the
`max_passes == 1` fast path returns the raw list while `max_passes > 1`
deduplicates, so the outputs differ — see the counterexample.) -/
theorem extract_consistent_idempotent [DecidableEq α] (rows : List (Rec α))
    (hid : hasNoIdRecord rows = false) (m₁ m₂ : Nat) (h₁ : 1 ≤ m₁)
    (h₂ : 1 ≤ m₂) :
    (extractLoop (fun _ => rows) m₁).rows = (extractLoop (fun _ => rows) m₂).rows ∧
    (extractLoop (fun _ => rows) m₁).rows = valuesOf (mergePass [] rows) := by
  rw [extractLoop_const_rows rows hid m₁ h₁, extractLoop_const_rows rows hid m₂ h₂]
  exact ⟨rfl, rfl⟩

/-- Witness for `extract_consistent_idempotent` at a concrete input. -/
theorem extract_consistent_idempotent_witness :
    (hasNoIdRecord [Rec.dict [("id", (0 : Nat))]] = false ∧ 1 ≤ 1 ∧ 1 ≤ 3) ∧
    ((extractLoop (fun _ => [Rec.dict [("id", (0 : Nat))]]) 1).rows =
        (extractLoop (fun _ => [Rec.dict [("id", (0 : Nat))]]) 3).rows ∧
      (extractLoop (fun _ => [Rec.dict [("id", (0 : Nat))]]) 1).rows =
        valuesOf (mergePass [] [Rec.dict [("id", (0 : Nat))]])) :=
  ⟨⟨by decide, by decide, by decide⟩,
    extract_consistent_idempotent [Rec.dict [("id", (0 : Nat))]] (by decide)
      1 3 (by decide) (by decide)⟩

/-- Counterexample to `C5` as stated: a constant upstream containing a
duplicated identity and one identity-less record.  With `max_passes = 1`
`extract_raw` returns the raw three-element list unchanged; with
`max_passes = 2` it returns the single consolidated record — the outputs
are not identical across values of `max_passes`. -/
theorem extract_idempotence_counterexample :
    extract_raw
        (fun _ => [Rec.dict [("id", (0 : Nat))], Rec.dict [("id", 0)], Rec.other 7])
        1 false (fun _ => none) =
      .ok [Rec.dict [("id", 0)], Rec.dict [("id", 0)], Rec.other 7] ∧
    extract_raw
        (fun _ => [Rec.dict [("id", (0 : Nat))], Rec.dict [("id", 0)], Rec.other 7])
        2 false (fun _ => none) =
      .ok [Rec.dict [("id", 0)]] ∧
    ([Rec.dict [("id", (0 : Nat))], Rec.dict [("id", 0)], Rec.other 7] ≠
      [Rec.dict [("id", (0 : Nat))]]) := by
  refine ⟨rfl, rfl, by decide⟩

/-- `C1` counterexample: with `max_passes = 2` and a constant one-record
upstream, pass 2 (a pass after the first) merges with the consolidated
cardinality unchanged, yet the loop does not stop early — it has already
used its full budget of 2 passes.  "Stops early exactly when a pass after
the first adds zero new identities" therefore fails in the only-if
direction. -/
theorem extract_raw_convergence_counterexample :
    (extractLoop (fun _ => [Rec.dict [("id", (0 : Nat))]]) 2).passesRun = 2 ∧
    (mapAfter (fun _ => [Rec.dict [("id", (0 : Nat))]]) 2).length =
      (mapAfter (fun _ => [Rec.dict [("id", (0 : Nat))]]) 1).length ∧
    ¬ ((extractLoop (fun _ => [Rec.dict [("id", (0 : Nat))]]) 2).passesRun < 2) := by
  refine ⟨rfl, rfl, by decide⟩

/-- Witness for `extract_raw_convergence_amended` at a concrete input. -/
theorem extract_raw_convergence_amended_witness :
    2 ≤ 3 ∧
    ((extractLoop (fun _ => [Rec.dict [("id", (0 : Nat))]]) 3).passesRun ≤ 3 ∧
      ((extractLoop (fun _ => [Rec.dict [("id", (0 : Nat))]]) 3).passesRun < 3 ↔
        (fun _ => [Rec.dict [("id", (0 : Nat))]]) 1 = [] ∨
        ∃ p, 2 ≤ p ∧ p < 3 ∧
          p ≤ (extractLoop (fun _ => [Rec.dict [("id", (0 : Nat))]]) 3).passesRun ∧
          zeroNewAt (fun _ => [Rec.dict [("id", (0 : Nat))]]) p)) :=
  ⟨by decide,
    extract_raw_convergence_amended (fun _ => [Rec.dict [("id", (0 : Nat))]]) 3
      (by decide)⟩

/-- `C9`: under `max_passes == 1`, a fetched pass containing a record that
is not a dict with an `'id'` key is returned as-is — raw, non-deduplicated,
bypassing consolidation and enrichment (`return raw_rows_pass`,
api_adapter.py line 206). -/
theorem extract_raw_noid_bypass [DecidableEq α] (passes : Nat → List (Rec α))
    (enrichById : Bool) (detail : α → Option (Rec α))
    (h : hasNoIdRecord (passes 1) = true) :
    extract_raw passes 1 enrichById detail = .ok (passes 1) := by
  have hne : (passes 1).isEmpty = false := by
    cases hrows : passes 1 with
    | nil => rw [hrows] at h; simp [hasNoIdRecord] at h
    | cons a l => simp [hrows]
  have hloop := extractLoop_one_noId passes hne h
  simp only [extract_raw, hloop]

/-- Witness for `extract_raw_noid_bypass` at a concrete input. -/
theorem extract_raw_noid_bypass_witness :
    hasNoIdRecord [Rec.dict [("id", (0 : Nat))], Rec.other 5] = true ∧
    extract_raw (fun _ => [Rec.dict [("id", (0 : Nat))], Rec.other 5]) 1 true
        (fun _ => none) =
      .ok [Rec.dict [("id", (0 : Nat))], Rec.other 5] :=
  ⟨by decide,
    extract_raw_noid_bypass (fun _ => [Rec.dict [("id", (0 : Nat))], Rec.other 5])
      true (fun _ => none) (by decide)⟩

/-- `C10`: with `enrich_by_id` and `max_passes > 1`, a non-empty upstream
none of whose records is a dict with an `'id'` key yields an empty
consolidated dict (identity-less records are silently skipped by the merge),
and the empty final list is rejected by `_enrich_data_raw`, raising
`DataExtractionError`. -/
theorem extract_raw_enrich_empty_error [DecidableEq α]
    (passes : Nat → List (Rec α)) (detail : α → Option (Rec α))
    (maxPasses : Nat) (h2 : 2 ≤ maxPasses) (hne : (passes 1).isEmpty = false)
    (hnoid : ∀ i, ∀ r ∈ passes i, r.idOf = none) :
    extract_raw passes maxPasses true detail = .error () := by
  have hm1 : mergePass ([] : List (α × Rec α)) (passes 1) = [] :=
    mergePass_of_noId _ _ (hnoid 1)
  have hstep := extractLoop_first_step passes maxPasses h2 hne
  rw [hm1] at hstep
  obtain ⟨f, hf⟩ : ∃ f, maxPasses - 1 = f + 1 := ⟨maxPasses - 2, by omega⟩
  rw [hf] at hstep
  cases h2rows : (passes 2).isEmpty with
  | true =>
      rw [loopGo_succ_empty passes maxPasses 2 f [] h2rows, if_pos (by omega)]
        at hstep
      simp only [extract_raw, hstep]
      rfl
  | false =>
      have hm2 : mergePass ([] : List (α × Rec α)) (passes 2) = [] :=
        mergePass_of_noId _ _ (hnoid 2)
      rw [loopGo_succ_step passes maxPasses 2 f [] h2rows (by omega), hm2,
        if_pos ⟨rfl, by omega⟩] at hstep
      simp only [extract_raw, hstep]
      rfl

/-- Witness for `extract_raw_enrich_empty_error` at a concrete input. -/
theorem extract_raw_enrich_empty_error_witness :
    (2 ≤ 2 ∧ ([Rec.dict [("x", (1 : Nat))]].isEmpty = false) ∧
      (∀ i : Nat, ∀ r ∈ (fun _ : Nat => [Rec.dict [("x", (1 : Nat))]]) i,
        r.idOf = none)) ∧
    extract_raw (fun _ => [Rec.dict [("x", (1 : Nat))]]) 2 true (fun _ => none) =
      .error () := by
  have hnoid : ∀ i : Nat, ∀ r ∈ (fun _ : Nat => [Rec.dict [("x", (1 : Nat))]]) i,
      r.idOf = none := by
    intro i r hr
    rw [List.mem_singleton] at hr
    subst hr
    rfl
  exact ⟨⟨by decide, by decide, hnoid⟩,
    extract_raw_enrich_empty_error (fun _ => [Rec.dict [("x", (1 : Nat))]])
      (fun _ => none) 2 (by decide) (by decide) hnoid⟩

/-! ## `APISourceAdapter._make_request` (api_adapter.py lines 126-142)

The network is an oracle `calls : Nat → HttpOutcome` giving the outcome of
the n-th `session.get` issued by this request (0-based, counting both the
per-attempt GET and the extra GET issued after a 401-triggered token
refresh).  `hasOauth` models `self._oauth_client` being set; the refresh
POST itself is modelled as succeeding (a failing refresh raises
`AuthenticationError`, which is not a `RequestException` and would
propagate — no settled claim exercises that path).  Wall-clock time is not
modelled; the backoff sleeps are recorded as the list of slept durations
`backoff_base * 2 ** i`. -/

/-- Outcome of one `session.get`: a network-level `RequestException` raised
by the call itself, or a response bearing a status code. -/
inductive HttpOutcome where
  | netErr
  | status (code : Nat)
deriving DecidableEq, Repr

/-- `response.raise_for_status()` raises exactly for 4xx/5xx codes. -/
def isErrorStatus (code : Nat) : Bool := decide (400 ≤ code ∧ code < 600)

/-- An attempt outcome that lands in the `except RequestException` handler:
a network failure, or any error status. -/
def attemptFails (o : HttpOutcome) : Bool :=
  match o with
  | .netErr => true
  | .status c => isErrorStatus c

/-- Observable result of `_make_request`: the returned status (or
`DataExtractionError` after exhausting retries), how many token refreshes
ran, how many GETs were issued, and the backoff sleeps performed. -/
structure ReqResult where
  result : Except Unit Nat
  refreshCalls : Nat
  httpCalls : Nat
  delays : List ℚ
deriving Repr

/-- The retry loop `for i in range(self._max_retries)` of `_make_request`.
`fuel` is the number of remaining attempts, `i` the attempt index, `n` the
next call-oracle position, `refreshes`/`delays` the accumulated trace. -/
def makeRequestGo (calls : Nat → HttpOutcome) (hasOauth : Bool)
    (backoffBase : ℚ) : Nat → Nat → Nat → Nat → List ℚ → ReqResult
  | 0, _, n, refreshes, delays => ⟨.error (), refreshes, n, delays⟩
  | fuel + 1, i, n, refreshes, delays =>
      match calls n with
      | .netErr =>
          makeRequestGo calls hasOauth backoffBase fuel (i + 1) (n + 1)
            refreshes (delays ++ [backoffBase * 2 ^ i])
      | .status c =>
          if c = 401 ∧ hasOauth then
            match calls (n + 1) with
            | .netErr =>
                makeRequestGo calls hasOauth backoffBase fuel (i + 1) (n + 2)
                  (refreshes + 1) (delays ++ [backoffBase * 2 ^ i])
            | .status c₂ =>
                if isErrorStatus c₂ then
                  makeRequestGo calls hasOauth backoffBase fuel (i + 1) (n + 2)
                    (refreshes + 1) (delays ++ [backoffBase * 2 ^ i])
                else ⟨.ok c₂, refreshes + 1, n + 2, delays⟩
          else if isErrorStatus c then
            makeRequestGo calls hasOauth backoffBase fuel (i + 1) (n + 1)
              refreshes (delays ++ [backoffBase * 2 ^ i])
          else ⟨.ok c, refreshes, n + 1, delays⟩

/-- `APISourceAdapter._make_request`. -/
def make_request (calls : Nat → HttpOutcome) (hasOauth : Bool)
    (maxRetries : Nat) (backoffBase : ℚ) : ReqResult :=
  makeRequestGo calls hasOauth backoffBase maxRetries 0 0 0 []

theorem makeRequestGo_ok (calls : Nat → HttpOutcome) (backoffBase : ℚ)
    (k : Nat) :
    ∀ fuel i n refreshes delays s, k < fuel →
      (∀ j, j < k → attemptFails (calls (n + j)) = true) →
      calls (n + k) = .status s → isErrorStatus s = false →
      makeRequestGo calls false backoffBase fuel i n refreshes delays =
        ⟨.ok s, refreshes, n + k + 1,
          delays ++ (List.range k).map (fun j => backoffBase * 2 ^ (i + j))⟩ := by
  induction k with
  | zero =>
      intro fuel i n refreshes delays s hk hfail hcall hs
      obtain ⟨f, rfl⟩ : ∃ f, fuel = f + 1 := ⟨fuel - 1, by omega⟩
      have hc : calls n = .status s := by simpa using hcall
      simp [makeRequestGo, hc, hs]
  | succ k ih =>
      intro fuel i n refreshes delays s hk hfail hcall hs
      obtain ⟨f, rfl⟩ : ∃ f, fuel = f + 1 := ⟨fuel - 1, by omega⟩
      have hmap : (List.range (k + 1)).map (fun j => backoffBase * 2 ^ (i + j)) =
          backoffBase * 2 ^ i ::
            (List.range k).map (fun j => backoffBase * 2 ^ (i + 1 + j)) := by
        rw [List.range_succ_eq_map, List.map_cons, List.map_map]
        refine congrArg₂ _ (by simp) (List.map_congr_left ?_)
        intro a _
        simp only [Function.comp_apply, Nat.succ_eq_add_one]
        rw [show i + (a + 1) = i + 1 + a by omega]
      have hfail0 : attemptFails (calls n) = true := by
        simpa using hfail 0 (by omega)
      have hrest : ∀ j, j < k → attemptFails (calls (n + 1 + j)) = true := by
        intro j hj
        have := hfail (j + 1) (by omega)
        simpa [Nat.add_assoc, Nat.add_comm 1 j] using this
      have hcall' : calls (n + 1 + k) = .status s := by
        have : n + 1 + k = n + (k + 1) := by omega
        rw [this, hcall]
      cases hc : calls n with
      | netErr =>
          rw [show makeRequestGo calls false backoffBase (f + 1) i n refreshes
                delays =
              makeRequestGo calls false backoffBase f (i + 1) (n + 1) refreshes
                (delays ++ [backoffBase * 2 ^ i]) by simp [makeRequestGo, hc]]
          rw [ih f (i + 1) (n + 1) refreshes _ s (by omega) hrest hcall' hs]
          simp only [hmap, ReqResult.mk.injEq, List.append_assoc,
            List.singleton_append, and_true, true_and]
          omega
      | status c =>
          have hcerr : isErrorStatus c = true := by
            rw [hc] at hfail0
            simpa [attemptFails] using hfail0
          rw [show makeRequestGo calls false backoffBase (f + 1) i n refreshes
                delays =
              makeRequestGo calls false backoffBase f (i + 1) (n + 1) refreshes
                (delays ++ [backoffBase * 2 ^ i]) by
            simp [makeRequestGo, hc, hcerr]]
          rw [ih f (i + 1) (n + 1) refreshes _ s (by omega) hrest hcall' hs]
          simp only [hmap, ReqResult.mk.injEq, List.append_assoc,
            List.singleton_append, and_true, true_and]
          omega

theorem makeRequestGo_exhaust (calls : Nat → HttpOutcome) (backoffBase : ℚ)
    (fuel : Nat) :
    ∀ i n refreshes delays,
      (∀ j, j < fuel → attemptFails (calls (n + j)) = true) →
      makeRequestGo calls false backoffBase fuel i n refreshes delays =
        ⟨.error (), refreshes, n + fuel,
          delays ++ (List.range fuel).map (fun j => backoffBase * 2 ^ (i + j))⟩ := by
  induction fuel with
  | zero =>
      intro i n refreshes delays _
      simp [makeRequestGo]
  | succ fuel ih =>
      intro i n refreshes delays hfail
      have hmap : (List.range (fuel + 1)).map (fun j => backoffBase * 2 ^ (i + j)) =
          backoffBase * 2 ^ i ::
            (List.range fuel).map (fun j => backoffBase * 2 ^ (i + 1 + j)) := by
        rw [List.range_succ_eq_map, List.map_cons, List.map_map]
        refine congrArg₂ _ (by simp) (List.map_congr_left ?_)
        intro a _
        simp only [Function.comp_apply, Nat.succ_eq_add_one]
        rw [show i + (a + 1) = i + 1 + a by omega]
      have hfail0 : attemptFails (calls n) = true := by
        simpa using hfail 0 (by omega)
      have hrest : ∀ j, j < fuel → attemptFails (calls (n + 1 + j)) = true := by
        intro j hj
        have := hfail (j + 1) (by omega)
        simpa [Nat.add_assoc, Nat.add_comm 1 j] using this
      cases hc : calls n with
      | netErr =>
          rw [show makeRequestGo calls false backoffBase (fuel + 1) i n refreshes
                delays =
              makeRequestGo calls false backoffBase fuel (i + 1) (n + 1) refreshes
                (delays ++ [backoffBase * 2 ^ i]) by simp [makeRequestGo, hc]]
          rw [ih (i + 1) (n + 1) refreshes _ hrest]
          simp only [hmap, ReqResult.mk.injEq, List.append_assoc,
            List.singleton_append, and_true, true_and]
          omega
      | status c =>
          have hcerr : isErrorStatus c = true := by
            rw [hc] at hfail0
            simpa [attemptFails] using hfail0
          rw [show makeRequestGo calls false backoffBase (fuel + 1) i n refreshes
                delays =
              makeRequestGo calls false backoffBase fuel (i + 1) (n + 1) refreshes
                (delays ++ [backoffBase * 2 ^ i]) by
            simp [makeRequestGo, hc, hcerr]]
          rw [ih (i + 1) (n + 1) refreshes _ hrest]
          simp only [hmap, ReqResult.mk.injEq, List.append_assoc,
            List.singleton_append, and_true, true_and]
          omega

/-- `C2`, amended.  `_make_request` treats every failed attempt uniformly:
any network error or any 4xx/5xx status (including non-retryable 4xx such as
404) consumes one unit of the retry budget and is followed by an exponential
backoff sleep of `backoff_base * 2 ** attempt`; the first non-failing
attempt's status is returned; exhausting `max_retries` raises
`DataExtractionError`.  `self.retryable_status_codes` is never consulted and
a 429 `Retry-After` header is never read (no auth configured here, so no
401 special case fires). -/
theorem make_request_uniform_retry (calls : Nat → HttpOutcome)
    (maxRetries : Nat) (backoffBase : ℚ) :
    (∀ k s, k < maxRetries → (∀ j, j < k → attemptFails (calls j) = true) →
      calls k = .status s → isErrorStatus s = false →
      make_request calls false maxRetries backoffBase =
        ⟨.ok s, 0, k + 1,
          (List.range k).map (fun j => backoffBase * 2 ^ j)⟩) ∧
    ((∀ j, j < maxRetries → attemptFails (calls j) = true) →
      make_request calls false maxRetries backoffBase =
        ⟨.error (), 0, maxRetries,
          (List.range maxRetries).map (fun j => backoffBase * 2 ^ j)⟩) := by
  constructor
  · intro k s hk hfail hcall hs
    rw [make_request,
      makeRequestGo_ok calls backoffBase k maxRetries 0 0 0 [] s hk
        (by simpa using hfail) (by simpa using hcall) hs]
    simp
  · intro hfail
    rw [make_request,
      makeRequestGo_exhaust calls backoffBase maxRetries 0 0 0 []
        (by simpa using hfail)]
    simp

/-- Witness for `make_request_uniform_retry` at a concrete input (a 404 on
attempt 0, success on attempt 1). -/
theorem make_request_uniform_retry_witness :
    ((1 : Nat) < 3 ∧
      (∀ j, j < 1 →
        attemptFails ((fun n => if n = 0 then HttpOutcome.status 404
          else HttpOutcome.status 200) j) = true) ∧
      (fun n => if n = 0 then HttpOutcome.status 404
        else HttpOutcome.status 200) 1 = HttpOutcome.status 200 ∧
      isErrorStatus 200 = false) ∧
    make_request
        (fun n => if n = 0 then HttpOutcome.status 404 else HttpOutcome.status 200)
        false 3 (1 / 2) =
      ⟨.ok 200, 0, 2, (List.range 1).map (fun j => (1 / 2 : ℚ) * 2 ^ j)⟩ :=
  ⟨⟨by decide, by decide, by decide, by decide⟩,
    (make_request_uniform_retry
        (fun n => if n = 0 then HttpOutcome.status 404 else HttpOutcome.status 200)
        3 (1 / 2)).1 1 200 (by decide) (by decide) (by decide) (by decide)⟩

/-- Counterexample to `C2` as stated: a request whose first attempt fails
with 404 — a "non-retryable" 4xx per the claim — is not aborted: the
executor sleeps the exponential backoff (0.5 s · 2⁰) and issues a second
HTTP call, which succeeds.  The retry budget was consumed by the 404
attempt, contradicting "aborts immediately without retrying and without
consuming the retry budget". -/
theorem make_request_404_counterexample :
    make_request
        (fun n => if n = 0 then HttpOutcome.status 404 else HttpOutcome.status 200)
        false 3 (1 / 2) =
      ⟨.ok 200, 0, 2, [1 / 2]⟩ := by
  rw [make_request,
    makeRequestGo_ok
      (fun n => if n = 0 then HttpOutcome.status 404 else HttpOutcome.status 200)
      (1 / 2) 1 3 0 0 0 [] 200 (by omega)
      (by intro j hj
          have hj0 : j = 0 := by omega
          subst hj0
          decide)
      (by decide) (by decide)]
  have hr : List.range 1 = [0] := rfl
  simp [hr]

/-- `C7`: under `oauth2` auth, a 401 on the first GET triggers exactly one
`refresh()` and one immediate re-issue of the identical request (same url,
same params — `api_adapter.py` line 135); when that retried response
succeeds, its status is returned, no backoff is slept and no error is
raised. -/
theorem make_request_401_refresh (calls : Nat → HttpOutcome)
    (maxRetries : Nat) (backoffBase : ℚ) (s : Nat) (h1 : 1 ≤ maxRetries)
    (hc0 : calls 0 = .status 401) (hc1 : calls 1 = .status s)
    (hs : isErrorStatus s = false) :
    make_request calls true maxRetries backoffBase = ⟨.ok s, 1, 2, []⟩ := by
  obtain ⟨f, rfl⟩ : ∃ f, maxRetries = f + 1 := ⟨maxRetries - 1, by omega⟩
  rw [make_request]
  simp [makeRequestGo, hc0, hc1, hs]

/-- Witness for `make_request_401_refresh` at a concrete input. -/
theorem make_request_401_refresh_witness :
    ((1 : Nat) ≤ 3 ∧
      (fun n => if n = 0 then HttpOutcome.status 401
        else HttpOutcome.status 200) 0 = HttpOutcome.status 401 ∧
      (fun n => if n = 0 then HttpOutcome.status 401
        else HttpOutcome.status 200) 1 = HttpOutcome.status 200 ∧
      isErrorStatus 200 = false) ∧
    make_request
        (fun n => if n = 0 then HttpOutcome.status 401 else HttpOutcome.status 200)
        true 3 (1 / 2) =
      ⟨.ok 200, 1, 2, []⟩ :=
  ⟨⟨by decide, by decide, by decide, by decide⟩,
    make_request_401_refresh
      (fun n => if n = 0 then HttpOutcome.status 401 else HttpOutcome.status 200)
      3 (1 / 2) 200 (by decide) (by decide) (by decide) (by decide)⟩

/-! ## Pagination (api_adapter.py lines 233-292 and 336-378)

`_fetch_all_pages` drives one pagination run.  The network is an oracle
`server : Params → Except Unit J`: the payload `response.json()` of the GET
issued with those query parameters, or `.error ()` when `_make_request`
exhausts its retries / the JSON decode fails (both surface as
`DataExtractionError`). -/

/-- A JSON value, as handled by `_get_data_from_payload`. -/
inductive J where
  | str (s : String)
  | num (n : Int)
  | bool (b : Bool)
  | null
  | arr (xs : List J)
  | obj (fields : List (String × J))

/-- The dot-path walk of `_get_data_from_payload`: per key, a list collapses
to its head (`data[0] if data else \x7b\x7d`), then the key is indexed.
`none` models the caught `KeyError`/`TypeError`/`IndexError` (the function
then returns `[]`). -/
def getPath : J → List String → Option J
  | data, [] => some data
  | data, key :: rest =>
      let d := match data with
        | .arr [] => J.obj []
        | .arr (x :: _) => x
        | _ => data
      match d with
      | .obj fields =>
          match dlookup fields key with
          | some v => getPath v rest
          | none => none
      | _ => none

/-- `for key in ("data", "items", "results", "content")`: the first probed
key bound to a list wins. -/
def probeKeys (fields : List (String × J)) : List String → Option (List J)
  | [] => none
  | key :: rest =>
      match dlookup fields key with
      | some (J.arr xs) => some xs
      | _ => probeKeys fields rest

/-- The tail of `_get_data_from_payload`: a dict probes the common wrapper
keys and otherwise wraps itself in a singleton list, a list passes through,
and a scalar yields `[]`. -/
def wrapData : J → List J
  | .obj fields =>
      match probeKeys fields ["data", "items", "results", "content"] with
      | some xs => xs
      | none => [J.obj fields]
  | .arr xs => xs
  | _ => []

/-- `APISourceAdapter._get_data_from_payload`.  An empty path string is
falsy in Python (`if path:`), hence treated like no path. -/
def get_data_from_payload (payload : J) (path : Option String) : List J :=
  match path with
  | none => wrapData payload
  | some p =>
      if p = "" then wrapData payload
      else
        match getPath payload (p.splitOn ".") with
        | none => []
        | some d => wrapData d

/-- A query-parameter value.  The adapter only ever performs arithmetic and
ordering on the page/size fields, which `_get_first_page_params` seeds as
ints; a string there would raise `TypeError` in Python and never arises in
the flows modelled here. -/
inductive PVal where
  | pint (n : Int)
  | pstr (s : String)
deriving DecidableEq, Repr

/-- A query-parameter dict. -/
abbrev Params := List (String × PVal)

/-- `self.paging`, a dict read via `.get` with per-key defaults: only these
five keys are ever read by the adapter. -/
structure Paging where
  mode : Option String := none
  page_param : Option String := none
  size_param : Option String := none
  size : Option Int := none
  start_page : Option Int := none

/-- `self.paging.get("page_param", "page")`. -/
def Paging.pageParamName (p : Paging) : String := p.page_param.getD "page"

/-- `self.paging.get("size_param", "limite")`. -/
def Paging.sizeParamName (p : Paging) : String := p.size_param.getD "limite"

/-- `APISourceAdapter._get_first_page_params`: only mode `"page"` seeds
page-number and page-size parameters; any other mode (including `"cursor"`)
leaves the base parameters untouched. -/
def get_first_page_params (paging : Paging) (base : Params) : Params :=
  if paging.mode = some "page" then
    dinsert
      (dinsert base paging.pageParamName (.pint (paging.start_page.getD 1)))
      paging.sizeParamName (.pint (paging.size.getD 100))
  else base

/-- `current_params.get(page_param, 1) + 1` (an int wherever reachable). -/
def pvalSucc : PVal → PVal
  | .pint n => .pint (n + 1)
  | .pstr s => .pstr s

/-- `APISourceAdapter._get_next_page_params`: mode `"page"` increments the
page parameter; every other mode returns `None` — there is no cursor
handling anywhere in the adapter. -/
def get_next_page_params (paging : Paging) (current : Params) : Option Params :=
  if paging.mode = some "page" then
    some (dinsert current paging.pageParamName
      (pvalSucc ((dlookup current paging.pageParamName).getD (.pint 1))))
  else none

/-- `page_size = params.get(self.paging.get("size_param", "limite"), 100)`,
computed once from the first-page parameters. -/
def pageSizeOf (paging : Paging) (params : Params) : PVal :=
  (dlookup params paging.sizeParamName).getD (.pint 100)

/-- `num_records < page_size` (int comparison wherever reachable). -/
def numLtSize (n : Nat) (v : PVal) : Bool :=
  match v with
  | .pint m => decide ((n : Int) < m)
  | .pstr _ => false

/-- `if self.row_limit and len(all_rows) >= self.row_limit` (`0`/`None` are
falsy: no limit). -/
def rowLimitHit (rowLimit : Option Nat) (acc : List J) : Bool :=
  match rowLimit with
  | none => false
  | some r => decide (r ≠ 0) && decide (r ≤ acc.length)

/-- Result of one pagination run: the accumulated rows and the number of
page requests issued. -/
structure FetchOut where
  rows : List J
  requests : Nat

/-- The body of `for page_num in range(1, max_pages + 1)` in
`_fetch_all_pages`.  `fuel` is the remaining page budget, `consecEmpty` the
consecutive-empty-page counter, `reqs` the requests issued so far. -/
def fetchGo (server : Params → Except Unit J) (paging : Paging)
    (dataPath : Option String) (rowLimit : Option Nat) (pageSize : PVal) :
    Nat → Params → List J → Nat → Nat → Except Unit FetchOut
  | 0, _, acc, _, reqs => .ok ⟨acc, reqs⟩
  | fuel + 1, params, acc, consecEmpty, reqs =>
      if rowLimitHit rowLimit acc then .ok ⟨acc, reqs⟩
      else
        match server params with
        | .error _ => .error ()
        | .ok payload =>
            let pageData := get_data_from_payload payload dataPath
            let acc' := acc ++ pageData
            let n := pageData.length
            let ce := if n = 0 then consecEmpty + 1 else 0
            if n = 0 ∧ 3 ≤ ce then .ok ⟨acc', reqs + 1⟩
            else if numLtSize n pageSize then .ok ⟨acc', reqs + 1⟩
            else
              match get_next_page_params paging params with
              | none => .ok ⟨acc', reqs + 1⟩
              | some p' =>
                  fetchGo server paging dataPath rowLimit pageSize fuel p'
                    acc' ce (reqs + 1)

/-- `APISourceAdapter._fetch_all_pages` (the `isinstance(page_data, list)`
guard is dead: `_get_data_from_payload` always returns a list; the
inter-page delay does not affect the produced values). -/
def fetch_all_pages (server : Params → Except Unit J) (paging : Paging)
    (dataPath : Option String) (rowLimit : Option Nat) (maxPages : Nat)
    (base : Params) : Except Unit FetchOut :=
  let params := get_first_page_params paging base
  fetchGo server paging dataPath rowLimit (pageSizeOf paging params) maxPages
    params [] 0 0

theorem fetchGo_requests_le_of_noNext (server : Params → Except Unit J)
    (paging : Paging) (dataPath : Option String) (rowLimit : Option Nat)
    (pageSize : PVal)
    (hnext : ∀ current, get_next_page_params paging current = none) :
    ∀ fuel params acc ce reqs out,
      fetchGo server paging dataPath rowLimit pageSize fuel params acc ce
          reqs = .ok out →
      out.requests ≤ reqs + 1 := by
  intro fuel params acc ce reqs out h
  cases fuel with
  | zero =>
      simp only [fetchGo, Except.ok.injEq] at h
      rw [← h]
      exact Nat.le_succ reqs
  | succ fuel =>
      simp only [fetchGo] at h
      by_cases hlim : rowLimitHit rowLimit acc = true
      · rw [if_pos hlim] at h
        simp only [Except.ok.injEq] at h
        rw [← h]
        exact Nat.le_succ reqs
      · rw [if_neg hlim] at h
        cases hs : server params with
        | error e =>
            simp only [hs] at h
            exact absurd h (by simp)
        | ok payload =>
            simp only [hs, hnext params] at h
            have hreq : out.requests = reqs + 1 := by
              simp only [ite_self, Except.ok.injEq] at h
              rw [← h]
            omega

/-- `C3`, amended.  Cursor-mode pagination is not implemented: for any
paging spec whose mode is not `"page"` (in particular `"cursor"`),
`_get_first_page_params` leaves the base parameters untouched,
`_get_next_page_params` yields no next-page parameters whatever the current
parameters — no cursor is ever read from any response — and a pagination
run issues at most one page request. -/
theorem cursor_mode_unimplemented (paging : Paging)
    (hmode : ¬ paging.mode = some "page") :
    (∀ current, get_next_page_params paging current = none) ∧
    (∀ base, get_first_page_params paging base = base) ∧
    (∀ server dataPath rowLimit maxPages base out,
      fetch_all_pages server paging dataPath rowLimit maxPages base =
        .ok out →
      out.requests ≤ 1) := by
  have hnext : ∀ current : Params, get_next_page_params paging current = none :=
    fun current => by simp [get_next_page_params, hmode]
  refine ⟨hnext, fun base => by simp [get_first_page_params, hmode], ?_⟩
  intro server dataPath rowLimit maxPages base out h
  rw [fetch_all_pages] at h
  exact fetchGo_requests_le_of_noNext server paging dataPath rowLimit _ hnext
    maxPages _ [] 0 0 out h

/-- An upstream for the cursor counterexample: every response carries a
full page of 100 records under `"data"` plus a cursor value. -/
def cursorProbeServer (_ : Params) : Except Unit J :=
  .ok (J.obj [("data", J.arr ((List.range 100).map (fun k => J.num k))),
              ("next_cursor", J.str "abc")])

/-- Counterexample to `C3` as stated: with `mode = "cursor"`, a response
holding a full page (100 of 100 records) and a cursor value, the engine
does not derive next-page parameters from the cursor and does not continue
page after page: the run stops after a single page request, although no
cursor is absent and no page/row limit (1000 pages, no row limit) was
reached. -/
theorem cursor_pagination_counterexample :
    (fetch_all_pages cursorProbeServer { mode := some "cursor" } none none
        1000 []).map (fun o => (o.rows.length, o.requests)) = .ok (100, 1) := by
  rfl

/-- Witness for `cursor_mode_unimplemented` at a concrete input. -/
theorem cursor_mode_unimplemented_witness :
    (¬ (Paging.mode { mode := some "cursor" } = some "page")) ∧
    ((∀ current, get_next_page_params { mode := some "cursor" } current = none) ∧
      (∀ base, get_first_page_params { mode := some "cursor" } base = base) ∧
      (∀ server dataPath rowLimit maxPages base out,
        fetch_all_pages server { mode := some "cursor" } dataPath rowLimit
            maxPages base = .ok out →
        out.requests ≤ 1)) :=
  ⟨by decide, cursor_mode_unimplemented { mode := some "cursor" } (by decide)⟩

/-- Upstream of the 100/100/40 page scenario, keyed by the `"page"`
query parameter. -/
def threePageServer (params : Params) : Except Unit J :=
  match dlookup params "page" with
  | some (.pint 1) => .ok (J.arr ((List.range 100).map (fun k => J.num k)))
  | some (.pint 2) => .ok (J.arr ((List.range 100).map (fun k => J.num (100 + k))))
  | some (.pint 3) => .ok (J.arr ((List.range 40).map (fun k => J.num (200 + k))))
  | _ => .ok (J.arr [])

/-- `C4`: a page whose extracted record count is strictly below the declared
page size ends the run right after that page (one final request, no
recursion), while a page of exactly the (positive) declared size under page
mode continues to the next page with the page parameter incremented and the
empty-page counter reset; in particular the 100/100/40 upstream with page
size 100 yields 240 raw records in exactly 3 page requests. -/
theorem pagination_short_page_boundary (server : Params → Except Unit J)
    (paging : Paging) (dataPath : Option String) (rowLimit : Option Nat)
    (pageSize : PVal) :
    (∀ fuel params acc consecEmpty reqs payload,
      rowLimitHit rowLimit acc = false → server params = .ok payload →
      numLtSize (get_data_from_payload payload dataPath).length pageSize =
        true →
      fetchGo server paging dataPath rowLimit pageSize (fuel + 1) params acc
          consecEmpty reqs =
        .ok ⟨acc ++ get_data_from_payload payload dataPath, reqs + 1⟩) ∧
    (∀ fuel params acc consecEmpty reqs payload s,
      rowLimitHit rowLimit acc = false → server params = .ok payload →
      pageSize = .pint s → 0 < s →
      ((get_data_from_payload payload dataPath).length : Int) = s →
      paging.mode = some "page" →
      fetchGo server paging dataPath rowLimit pageSize (fuel + 1) params acc
          consecEmpty reqs =
        fetchGo server paging dataPath rowLimit pageSize fuel
          (dinsert params paging.pageParamName
            (pvalSucc ((dlookup params paging.pageParamName).getD (.pint 1))))
          (acc ++ get_data_from_payload payload dataPath) 0 (reqs + 1)) ∧
    (fetch_all_pages threePageServer
          { mode := some "page", size := some 100 } none none 1000 []).map
        (fun o => (o.rows.length, o.requests)) = .ok (240, 3) := by
  refine ⟨?_, ?_, by rfl⟩
  · intro fuel params acc consecEmpty reqs payload hlim hsrv hshort
    simp [fetchGo, hlim, hsrv, hshort]
  · intro fuel params acc consecEmpty reqs payload s hlim hsrv hps hpos hn hmode
    have hne : (get_data_from_payload payload dataPath).length ≠ 0 := by
      intro h0
      rw [h0] at hn
      omega
    have hlt : numLtSize (get_data_from_payload payload dataPath).length
        pageSize = false := by
      rw [hps]
      simp only [numLtSize, decide_eq_false_iff_not, not_lt]
      omega
    simp [fetchGo, hlim, hsrv, hne, hlt, get_next_page_params, hmode]

/-- Witness for `pagination_short_page_boundary` at a concrete input (the
40-record page 3 of the scenario upstream stops the run). -/
theorem pagination_short_page_boundary_witness :
    (rowLimitHit none [] = false ∧
      threePageServer [("page", PVal.pint 3), ("limite", PVal.pint 100)] =
        .ok (J.arr ((List.range 40).map (fun k => J.num (200 + k)))) ∧
      numLtSize
          (get_data_from_payload
            (J.arr ((List.range 40).map (fun k => J.num (200 + k)))) none).length
          (PVal.pint 100) = true) ∧
    fetchGo threePageServer { mode := some "page", size := some 100 } none none
        (PVal.pint 100) (5 + 1) [("page", PVal.pint 3), ("limite", PVal.pint 100)]
        [] 0 2 =
      .ok ⟨[] ++ get_data_from_payload
          (J.arr ((List.range 40).map (fun k => J.num (200 + k)))) none, 2 + 1⟩ :=
  ⟨⟨rfl, rfl, rfl⟩,
    (pagination_short_page_boundary threePageServer
        { mode := some "page", size := some 100 } none none (PVal.pint 100)).1
      5 [("page", PVal.pint 3), ("limite", PVal.pint 100)] [] 0 2
      (J.arr ((List.range 40).map (fun k => J.num (200 + k)))) rfl rfl rfl⟩

/-! ## `OAuth2Client._save_tokens` (oauth2_client.py lines 144-164)

Token records are JSON dicts whose values are strings (tokens) or numbers
(expiry instants; `time.time()` is modelled as a rational `now`).  The
persisted store is the parsed content of the cache file: `[]` plays the role
of `\x7b\x7d`, returned by `_load_tokens` when the file is missing or
corrupt.  `int(x)` applied to a string value of `expires_in` is an oracle
`parseInt` (never exercised by the settled claims).  A failing
`json.dump` (logged and swallowed by the code) is not modelled: the claims
concern the record that a successful save persists. -/

/-- A token-record value. -/
inductive TVal where
  | tstr (s : String)
  | tnum (q : ℚ)
deriving DecidableEq, Repr

/-- Python `int()` truncation toward zero on a number. -/
def intTrunc (q : ℚ) : Int := if 0 ≤ q then ⌊q⌋ else ⌈q⌉

/-- `OAuth2Client._save_tokens`: stamps `expires_at = time.time() +
int(expires_in)` (default 3600), and, when the response omits
`refresh_token` but the previously stored record has one, copies the stored
refresh token into the record before persisting it.  Returns the persisted
record (the new cache-file content). -/
def expiresInOf (parseInt : String → Int) (td : List (String × TVal)) : Int :=
  match dlookup td "expires_in" with
  | some (.tnum q) => intTrunc q
  | some (.tstr s) => parseInt s
  | none => 3600

def save_tokens (now : ℚ) (parseInt : String → Int)
    (store td : List (String × TVal)) : List (String × TVal) :=
  let td₁ := dinsert td "expires_at" (.tnum (now + expiresInOf parseInt td))
  if (dlookup td₁ "refresh_token").isSome then td₁
  else
    match dlookup store "refresh_token" with
    | some rt => dinsert td₁ "refresh_token" rt
    | none => td₁

/-- `C6`: for every token save (`exchange_code` and `refresh` both persist
the server response through `_save_tokens`), a previously stored refresh
token is carried over whenever the response omits one: the persisted record
maps `refresh_token` to the stored value, which is never overwritten by an
omitting response. -/
theorem save_tokens_preserves_refresh (now : ℚ) (parseInt : String → Int)
    (store td : List (String × TVal)) (rt : TVal)
    (hstore : dlookup store "refresh_token" = some rt)
    (hmiss : dlookup td "refresh_token" = none) :
    dlookup (save_tokens now parseInt store td) "refresh_token" = some rt := by
  have hne : "refresh_token" ≠ "expires_at" := by decide
  have h₁ : dlookup
      (dinsert td "expires_at" (.tnum (now + expiresInOf parseInt td)))
      "refresh_token" = none := by
    rw [dlookup_dinsert_ne td _ _ _ hne, hmiss]
  simp only [save_tokens, h₁, Option.isSome_none, Bool.false_eq_true,
    if_false, hstore]
  exact dlookup_dinsert_self _ _ _

/-- Witness for `save_tokens_preserves_refresh` at a concrete input. -/
theorem save_tokens_preserves_refresh_witness :
    (dlookup [("access_token", TVal.tstr "a"), ("refresh_token", TVal.tstr "r")]
        "refresh_token" = some (TVal.tstr "r") ∧
      dlookup [("access_token", TVal.tstr "b"),
        ("expires_in", TVal.tnum 3600)] "refresh_token" = none) ∧
    dlookup
        (save_tokens 1000 (fun _ => 0)
          [("access_token", TVal.tstr "a"), ("refresh_token", TVal.tstr "r")]
          [("access_token", TVal.tstr "b"), ("expires_in", TVal.tnum 3600)])
        "refresh_token" = some (TVal.tstr "r") :=
  ⟨⟨by decide, by decide⟩,
    save_tokens_preserves_refresh 1000 (fun _ => 0)
      [("access_token", TVal.tstr "a"), ("refresh_token", TVal.tstr "r")]
      [("access_token", TVal.tstr "b"), ("expires_in", TVal.tnum 3600)]
      (TVal.tstr "r") (by decide) (by decide)⟩

/-! ## Concurrent `ensure_access_token` (oauth2_client.py lines 44-73 and
104-142)

`OAuth2Client` takes no lock anywhere: `ensure_access_token` reads the
cached record, compares `expires_at - 300` against `time.time()`, and when
expired calls `refresh(refresh_token)`, which POSTs to the token endpoint
and rewrites the cache through `_save_tokens`.  N concurrent callers are
modelled as atomic read and refresh-and-save steps over the shared store
under an explicit schedule; nothing in the code prevents the schedule in
which every caller performs its expiry check before any refresh completes.
(An empty-string token, falsy in Python, is not modelled; no settled claim
exercises one.) -/

/-- `tokens.get("expires_at", 0)` as a number (the code always stores it as
one). -/
def expiresAtOf (tokens : List (String × TVal)) : ℚ :=
  match dlookup tokens "expires_at" with
  | some (.tnum q) => q
  | _ => 0

/-- `now >= (expires_at - self.expiry_buffer)` with the 300-second buffer. -/
def needsRefresh (now : ℚ) (tokens : List (String × TVal)) : Bool :=
  decide (expiresAtOf tokens - 300 ≤ now)

/-- A caller issues a network refresh iff the record it read is non-empty,
expired (with buffer) and holds a refresh token; in every other case
`ensure_access_token` raises `AuthenticationError` or returns the cached
access token without touching the network. -/
def decidesToRefresh (now : ℚ) (tokens : List (String × TVal)) : Bool :=
  !tokens.isEmpty && needsRefresh now tokens &&
    (dlookup tokens "refresh_token").isSome

/-- Shared state: the cache-file content and the number of network refresh
POSTs issued so far. -/
structure OAuthState where
  store : List (String × TVal)
  refreshPosts : Nat

/-- The refresh step of one caller whose earlier read returned `readStore`:
if that read told it to refresh, it POSTs (one network refresh) and persists
the server response via `_save_tokens` over the store as it is now. -/
def callerStep (now : ℚ) (parseInt : String → Int)
    (response readStore : List (String × TVal)) (st : OAuthState) :
    OAuthState :=
  if decidesToRefresh now readStore then
    ⟨save_tokens now parseInt st.store response, st.refreshPosts + 1⟩
  else st

/-- The unserialized schedule: all N callers read the initial store and
evaluate their expiry check before any refresh completes; then their
refresh steps run one after another. -/
def runAllReadsFirst (now : ℚ) (parseInt : String → Int)
    (response store₀ : List (String × TVal)) : Nat → OAuthState
  | 0 => ⟨store₀, 0⟩
  | n + 1 =>
      callerStep now parseInt response store₀
        (runAllReadsFirst now parseInt response store₀ n)

/-- `C8`, amended.  Refresh execution is not serialized: under the
interleaving in which all N concurrent callers of `ensure_access_token`
check the (expired, refresh-token-bearing) cached record before any refresh
completes, every caller issues its own network refresh — N POSTs, not one.
Each save rewrites the cache file; the last writer wins. -/
theorem ensure_access_token_not_serialized (now : ℚ) (parseInt : String → Int)
    (response store₀ : List (String × TVal))
    (hexp : decidesToRefresh now store₀ = true) (n : Nat) :
    (runAllReadsFirst now parseInt response store₀ n).refreshPosts = n := by
  induction n with
  | zero => rfl
  | succ n ih => simp [runAllReadsFirst, callerStep, hexp, ih]

/-- The example cached record (expiry 100, observed at time 1000) does
trigger a refresh. -/
theorem exampleStoreExpired :
    decidesToRefresh 1000
      [("access_token", TVal.tstr "a"), ("refresh_token", TVal.tstr "r"),
        ("expires_at", TVal.tnum 100)] = true := by
  have h1 : expiresAtOf
      [("access_token", TVal.tstr "a"), ("refresh_token", TVal.tstr "r"),
        ("expires_at", TVal.tnum 100)] = 100 := by decide
  have h2 : needsRefresh 1000
      [("access_token", TVal.tstr "a"), ("refresh_token", TVal.tstr "r"),
        ("expires_at", TVal.tnum 100)] = true := by
    simp only [needsRefresh, h1, decide_eq_true_eq]
    norm_num
  simp only [decidesToRefresh, h2]
  decide

/-- Counterexample to `C8` as stated: two concurrent callers over an
expired cached record (expiry 100, now 1000, refresh token present) under
the all-reads-first schedule issue 2 network refreshes, not exactly 1. -/
theorem token_refresh_counterexample :
    (runAllReadsFirst 1000 (fun _ => 0)
        [("access_token", TVal.tstr "b"), ("expires_in", TVal.tnum 3600)]
        [("access_token", TVal.tstr "a"), ("refresh_token", TVal.tstr "r"),
          ("expires_at", TVal.tnum 100)] 2).refreshPosts = 2 ∧
    (2 : Nat) ≠ 1 := by
  refine ⟨?_, by decide⟩
  simp [runAllReadsFirst, callerStep, exampleStoreExpired]

/-- Witness for `ensure_access_token_not_serialized` at a concrete input. -/
theorem ensure_access_token_not_serialized_witness :
    decidesToRefresh 1000
      [("access_token", TVal.tstr "a"), ("refresh_token", TVal.tstr "r"),
        ("expires_at", TVal.tnum 100)] = true ∧
    (runAllReadsFirst 1000 (fun _ => 0)
        [("access_token", TVal.tstr "b"), ("expires_in", TVal.tnum 3600)]
        [("access_token", TVal.tstr "a"), ("refresh_token", TVal.tstr "r"),
          ("expires_at", TVal.tnum 100)] 3).refreshPosts = 3 := by
  exact ⟨exampleStoreExpired,
    ensure_access_token_not_serialized 1000 (fun _ => 0)
      [("access_token", TVal.tstr "b"), ("expires_in", TVal.tnum 3600)]
      [("access_token", TVal.tstr "a"), ("refresh_token", TVal.tstr "r"),
        ("expires_at", TVal.tnum 100)] exampleStoreExpired 3⟩

end DataMat
